import Mathlib

/-!
Shallow embedding of the arithmetic-expression front end in
`bicycle-book/src/ch09.rs`: lexer, recursive-descent parser with spans,
tree-walking interpreter, and the diagnostic span derivation.

Conventions of the embedding:
* Rust `usize` positions are `Nat`; input strings are lists of byte
  values (`List Nat`), obtained from ASCII literals via `strBytes`.
* Rust `Annotation<T>` (a value paired with a `Loc`) is `Located T`.
* Rust's `Peekable` token iterator becomes explicit state passing: each
  parsing function takes the remaining token list and returns the result
  together with the unconsumed suffix.
* Recursion in the lexer loop and the mutually recursive parser is fed
  by an explicit fuel argument so the definitions stay structurally
  recursive (and hence computable by `decide`/`rfl`); the top-level
  entry points supply fuel that is ample for the whole input.
* `i64` values are `Int`s normalized by `wrap64` (two's-complement
  wrap-around, the release-mode semantics of Rust's arithmetic).
  Division is Rust's `/` on `i64`, truncation toward zero (`Int.tdiv`).
* `InvalidChar` carries the offending byte as a `Nat` (Rust casts the
  `u8` to `char`; on bytes this cast is injective, so nothing is lost).
-/

/-- Rust `Loc(usize, usize)`: a half-open byte interval `[lo, hi)`. -/
structure Loc where
  lo : Nat
  hi : Nat
deriving DecidableEq, Repr

/-- Rust `Loc::merge`: smallest interval covering both. -/
def Loc.merge (a b : Loc) : Loc :=
  ⟨min a.lo b.lo, max a.hi b.hi⟩

/-- Rust `Annotation<T>`: a payload together with its source span. -/
structure Located (T : Type) where
  value : T
  loc : Loc
deriving DecidableEq, Repr

inductive TokenKind where
  | Number (n : Nat)
  | Plus
  | Minus
  | Asterisk
  | Slash
  | LParen
  | RParen
deriving DecidableEq, Repr

abbrev Token := Located TokenKind

inductive LexErrorKind where
  | InvalidChar (b : Nat)
  | Eof
deriving DecidableEq, Repr

abbrev LexError := Located LexErrorKind

/-- Byte values of the ASCII characters the lexer dispatches on. -/
def isDigitByte (b : Nat) : Bool := 48 ≤ b && b ≤ 57

def isSpaceByte (b : Nat) : Bool := b = 32 || b = 10 || b = 9

/-- Rust `recognize_many`: starting at `pos`, advance while the byte
satisfies `f`, returning the first position that fails (or the end of
input). `fuel` only bounds the recursion; callers pass `input.length`,
which is always enough. -/
def recognizeMany (input : List Nat) (f : Nat → Bool) : Nat → Nat → Nat
  | 0, pos => pos
  | fuel + 1, pos =>
    if pos < input.length && f (input.getD pos 0) then
      recognizeMany input f fuel (pos + 1)
    else
      pos

/-- Decimal value of the digit run `input[start..stop]`
(Rust `from_utf8(&input[start..end]).unwrap().parse().unwrap()`). -/
def digitsVal (input : List Nat) (start stop : Nat) : Nat :=
  ((input.drop start).take (stop - start)).foldl (fun acc b => acc * 10 + (b - 48)) 0

/-- The byte values the lexer accepts: digits, `+ - * / ( )`, and
space/newline/tab. Anything else is an `InvalidChar` error. -/
def isLexableByte (b : Nat) : Bool :=
  isDigitByte b || b = 43 || b = 45 || b = 42 || b = 47 || b = 40 || b = 41 || isSpaceByte b

/-- Rust `lex`'s `while pos < input.len()` loop, returning the tokens
from `pos` onward. Each single-byte branch inlines the corresponding
`lex_plus`/`lex_minus`/… helper (whose `consume_byte` cannot fail there,
since the loop has already dispatched on the byte). -/
def lexRun (input : List Nat) : Nat → Nat → Except LexError (List Token)
  | 0, _ => .ok []
  | fuel + 1, pos =>
    if pos < input.length then
      let b := input.getD pos 0
      if isDigitByte b then
        -- Rust `lex_number`
        let stop := recognizeMany input isDigitByte input.length pos
        match lexRun input fuel stop with
        | .error e => .error e
        | .ok ts => .ok (⟨.Number (digitsVal input pos stop), ⟨pos, stop⟩⟩ :: ts)
      else if b = 43 then
        match lexRun input fuel (pos + 1) with
        | .error e => .error e
        | .ok ts => .ok (⟨.Plus, ⟨pos, pos + 1⟩⟩ :: ts)
      else if b = 45 then
        match lexRun input fuel (pos + 1) with
        | .error e => .error e
        | .ok ts => .ok (⟨.Minus, ⟨pos, pos + 1⟩⟩ :: ts)
      else if b = 42 then
        match lexRun input fuel (pos + 1) with
        | .error e => .error e
        | .ok ts => .ok (⟨.Asterisk, ⟨pos, pos + 1⟩⟩ :: ts)
      else if b = 47 then
        match lexRun input fuel (pos + 1) with
        | .error e => .error e
        | .ok ts => .ok (⟨.Slash, ⟨pos, pos + 1⟩⟩ :: ts)
      else if b = 40 then
        match lexRun input fuel (pos + 1) with
        | .error e => .error e
        | .ok ts => .ok (⟨.LParen, ⟨pos, pos + 1⟩⟩ :: ts)
      else if b = 41 then
        match lexRun input fuel (pos + 1) with
        | .error e => .error e
        | .ok ts => .ok (⟨.RParen, ⟨pos, pos + 1⟩⟩ :: ts)
      else if isSpaceByte b then
        -- Rust `skip_spaces`
        lexRun input fuel (recognizeMany input isSpaceByte input.length pos)
      else
        .error ⟨.InvalidChar b, ⟨pos, pos + 1⟩⟩
    else
      .ok []

/-- Rust `lex`: tokenize the whole input. Each loop step advances `pos`
by at least one, so `input.length + 1` units of fuel always suffice. -/
def lex (input : List Nat) : Except LexError (List Token) :=
  lexRun input (input.length + 1) 0

/-- Byte values of an ASCII string literal
(Rust works on `input.as_bytes()`; for ASCII the two agree). -/
def strBytes (s : String) : List Nat := s.data.map Char.toNat

instance {ε α : Type} [DecidableEq ε] [DecidableEq α] : DecidableEq (Except ε α) :=
  fun a b =>
    match a, b with
    | .ok x, .ok y =>
      if h : x = y then isTrue (by rw [h]) else isFalse (fun hc => h (Except.ok.inj hc))
    | .error x, .error y =>
      if h : x = y then isTrue (by rw [h]) else isFalse (fun hc => h (Except.error.inj hc))
    | .ok _, .error _ => isFalse (fun hc => Except.noConfusion hc)
    | .error _, .ok _ => isFalse (fun hc => Except.noConfusion hc)

inductive UniOpKind where
  | Plus
  | Minus
deriving DecidableEq, Repr

abbrev UniOp := Located UniOpKind

inductive BinOpKind where
  | Add
  | Sub
  | Multi
  | Div
deriving DecidableEq, Repr

abbrev BinOp := Located BinOpKind

/-- Rust `Ast = Annotation<AstKind>`; here the annotation's `loc` field is
inlined into each constructor (the payloads are exactly `AstKind`'s). -/
inductive Ast where
  | num (n : Nat) (loc : Loc)
  | uniOp (op : UniOp) (e : Ast) (loc : Loc)
  | binOp (op : BinOp) (l : Ast) (r : Ast) (loc : Loc)
deriving DecidableEq, Repr

/-- The annotation's span (Rust `.loc`). -/
def Ast.loc : Ast → Loc
  | .num _ loc => loc
  | .uniOp _ _ loc => loc
  | .binOp _ _ _ loc => loc

inductive ParseError where
  | UnexpectedToken (tok : Token)
  | NotExpression (tok : Token)
  | NotOperator (tok : Token)
  | UnclosedOpenParen (tok : Token)
  | RedundantExpression (tok : Token)
  | Eof
deriving DecidableEq, Repr

/-- Rust `parse_expr3_op` (the `op_parser` passed to `parse_left_binop`):
peek at the next token; accept `+`/`-` as an additive operator and
consume it, otherwise fail without consuming. -/
def parseExpr3Op : List Token → Except ParseError (BinOp × List Token)
  | [] => .error .Eof
  | tok :: rest =>
    match tok.value with
    | .Plus => .ok (⟨.Add, tok.loc⟩, rest)
    | .Minus => .ok (⟨.Sub, tok.loc⟩, rest)
    | _ => .error (.NotOperator tok)

/-- The `while` loop of Rust `parse_left_binop`, after the initial
`sub_expr_parser` call produced `e`: while tokens remain, try `opP`; on
failure break (returning `e`), on success parse the right operand with
`subP` and wrap `e` in a new binary node whose span merges both sides.
Fuel 0 corresponds to breaking out of the loop; callers always supply
enough fuel for that case never to be reached. -/
def parseLeftBinopGo (opP : List Token → Except ParseError (BinOp × List Token))
    (subP : List Token → Except ParseError (Ast × List Token)) :
    Nat → Ast → List Token → Except ParseError (Ast × List Token)
  | 0, e, toks => .ok (e, toks)
  | fuel + 1, e, toks =>
    match toks with
    | [] => .ok (e, toks)
    | _ :: _ =>
      match opP toks with
      | .error _ => .ok (e, toks)
      | .ok (op, toks1) =>
        match subP toks1 with
        | .error err => .error err
        | .ok (r, toks2) =>
          parseLeftBinopGo opP subP fuel (Ast.binOp op e r (e.loc.merge r.loc)) toks2

mutual

/-- Rust `parse_atom`: a number token, or a parenthesized expression
(returned unchanged) that must be followed by `)`. -/
def parseAtom : Nat → List Token → Except ParseError (Ast × List Token)
  | 0, _ => .error .Eof
  | fuel + 1, toks =>
    match toks with
    | [] => .error .Eof
    | tok :: rest =>
      match tok.value with
      | .Number n => .ok (Ast.num n tok.loc, rest)
      | .LParen =>
        match parseExpr3 fuel rest with
        | .error e => .error e
        | .ok (e, rest2) =>
          match rest2 with
          | t :: rest3 =>
            match t.value with
            | .RParen => .ok (e, rest3)
            | _ => .error (.RedundantExpression t)
          | [] => .error (.UnclosedOpenParen tok)
      | _ => .error (.NotExpression tok)

/-- Rust `parse_expr1`: an optional unary `+`/`-` sign applied to an
atom, with span `op.loc ∪ operand.loc`. -/
def parseExpr1 : Nat → List Token → Except ParseError (Ast × List Token)
  | 0, _ => .error .Eof
  | fuel + 1, toks =>
    match toks with
    | tok :: rest =>
      match tok.value with
      | .Plus =>
        match parseAtom fuel rest with
        | .error e => .error e
        | .ok (e, rest2) =>
          .ok (Ast.uniOp ⟨.Plus, tok.loc⟩ e (tok.loc.merge e.loc), rest2)
      | .Minus =>
        match parseAtom fuel rest with
        | .error e => .error e
        | .ok (e, rest2) =>
          .ok (Ast.uniOp ⟨.Minus, tok.loc⟩ e (tok.loc.merge e.loc), rest2)
      | _ => parseAtom fuel toks
    | [] => parseAtom fuel toks

/-- Rust `parse_expr2`: `parse_expr1`, then the inline left-associative
loop over `*`/`/`. -/
def parseExpr2 : Nat → List Token → Except ParseError (Ast × List Token)
  | 0, _ => .error .Eof
  | fuel + 1, toks =>
    match parseExpr1 fuel toks with
    | .error e => .error e
    | .ok (e, toks1) => parseExpr2Go fuel e toks1

/-- The `loop` inside Rust `parse_expr2`: while the next token is `*` or
`/`, consume it, parse the right operand with `parse_expr1`, and wrap
the accumulated left subtree, merging spans. Any other peeked token (or
no token) ends the loop. -/
def parseExpr2Go : Nat → Ast → List Token → Except ParseError (Ast × List Token)
  | 0, e, toks => .ok (e, toks)
  | fuel + 1, e, toks =>
    match toks with
    | tok :: rest =>
      match tok.value with
      | .Asterisk =>
        match parseExpr1 fuel rest with
        | .error err => .error err
        | .ok (r, toks2) =>
          parseExpr2Go fuel (Ast.binOp ⟨.Multi, tok.loc⟩ e r (e.loc.merge r.loc)) toks2
      | .Slash =>
        match parseExpr1 fuel rest with
        | .error err => .error err
        | .ok (r, toks2) =>
          parseExpr2Go fuel (Ast.binOp ⟨.Div, tok.loc⟩ e r (e.loc.merge r.loc)) toks2
      | _ => .ok (e, toks)
    | [] => .ok (e, toks)

/-- Rust `parse_expr3 = parse_left_binop(tokens, parse_expr2, parse_expr3_op)`. -/
def parseExpr3 : Nat → List Token → Except ParseError (Ast × List Token)
  | 0, _ => .error .Eof
  | fuel + 1, toks =>
    match parseExpr2 fuel toks with
    | .error e => .error e
    | .ok (e, toks1) => parseLeftBinopGo parseExpr3Op (parseExpr2 fuel) fuel e toks1

end

/-- Rust `parse_expr`: delegates to `parse_expr3`. -/
def parseExpr (fuel : Nat) (toks : List Token) : Except ParseError (Ast × List Token) :=
  parseExpr3 fuel toks

/-- Ample fuel for a token list: the nesting of
`parse_expr3 → parse_expr2 → parse_expr1 → parse_atom` costs at most
four units of fuel per consumed token. -/
def fuelFor (tokens : List Token) : Nat := 4 * tokens.length + 8

/-- Rust `parse`: parse an expression, then require that every token was
consumed; a leftover token is a `RedundantExpression` error. -/
def parse (tokens : List Token) : Except ParseError Ast :=
  match parseExpr (fuelFor tokens) tokens with
  | .error e => .error e
  | .ok (ast, []) => .ok ast
  | .ok (_, t :: _) => .error (.RedundantExpression t)

/-- Rust top-level `Error`: tags which stage failed. -/
inductive Error where
  | Lexer (e : LexError)
  | Parser (e : ParseError)
deriving DecidableEq, Repr

/-- Rust `Ast::from_str` (the spec's `parse_source`): lex, then parse. -/
def parseSource (input : List Nat) : Except Error Ast :=
  match lex input with
  | .error e => .error (.Lexer e)
  | .ok tokens =>
    match parse tokens with
    | .error e => .error (.Parser e)
    | .ok ast => .ok ast

inductive InterpreterErrorKind where
  | DivisionByZero
deriving DecidableEq, Repr

abbrev InterpreterError := Located InterpreterErrorKind

/-- Two's-complement wrap-around into the `i64` range
`[-2^63, 2^63)` (Rust's release-mode arithmetic semantics). -/
def wrap64 (z : Int) : Int := (z + 2 ^ 63) % 2 ^ 64 - 2 ^ 63

/-- Rust `Interpreter::eval_uni_op`. -/
def evalUniOp (op : UniOp) (n : Int) : Int :=
  match op.value with
  | .Plus => n
  | .Minus => wrap64 (-n)

/-- Rust `Interpreter::eval_bin_op`: division by zero is the only
failure; `/` on `i64` truncates toward zero (`Int.tdiv`). -/
def evalBinOp (op : BinOp) (l r : Int) : Except InterpreterErrorKind Int :=
  match op.value with
  | .Add => .ok (wrap64 (l + r))
  | .Sub => .ok (wrap64 (l - r))
  | .Multi => .ok (wrap64 (l * r))
  | .Div =>
    if r = 0 then .error .DivisionByZero
    else .ok (wrap64 (Int.tdiv l r))

/-- Rust `Interpreter::eval`: recursive evaluation; a failing
`eval_bin_op` is annotated with the binary-operation *node's* span. -/
def Interpreter.eval : Ast → Except InterpreterError Int
  | .num n _ => .ok (wrap64 n)
  | .uniOp op e _ =>
    match Interpreter.eval e with
    | .error err => .error err
    | .ok v => .ok (evalUniOp op v)
  | .binOp op l r loc =>
    match Interpreter.eval l with
    | .error err => .error err
    | .ok lv =>
      match Interpreter.eval r with
      | .error err => .error err
      | .ok rv =>
        match evalBinOp op lv rv with
        | .error k => .error ⟨k, loc⟩
        | .ok v => .ok v

/-- Lex, parse, and evaluate (`none` when lexing or parsing failed):
the composition the spec's end-to-end scenarios are stated over. -/
def runSource (input : List Nat) : Option (Except InterpreterError Int) :=
  match parseSource input with
  | .error _ => none
  | .ok ast => some (Interpreter.eval ast)

/-- The span-derivation logic of Rust `Error::show_diagnostic` (the part
of that printing routine that computes the highlight span `loc` from the
error and the input length). -/
def diagnosticLoc (input : List Nat) : Error → Loc
  | .Lexer e => e.loc
  | .Parser pe =>
    match pe with
    | .UnexpectedToken tok => tok.loc
    | .NotExpression tok => tok.loc
    | .NotOperator tok => tok.loc
    | .UnclosedOpenParen tok => tok.loc
    | .RedundantExpression tok => ⟨tok.loc.lo, input.length⟩
    | .Eof => ⟨input.length, input.length + 1⟩

/-- `s` occurs as a subtree of `e` (reflexively). -/
inductive Subterm : Ast → Ast → Prop
  | refl (e : Ast) : Subterm e e
  | uniOp {s e : Ast} (op : UniOp) (loc : Loc) :
      Subterm s e → Subterm s (.uniOp op e loc)
  | binOpL {s l : Ast} (op : BinOp) (r : Ast) (loc : Loc) :
      Subterm s l → Subterm s (.binOp op l r loc)
  | binOpR {s r : Ast} (op : BinOp) (l : Ast) (loc : Loc) :
      Subterm s r → Subterm s (.binOp op l r loc)

/-- `true` iff the AST contains no division node. -/
def Ast.noDiv : Ast → Bool
  | .num _ _ => true
  | .uniOp _ e _ => e.noDiv
  | .binOp op l r _ =>
    (match op.value with
      | .Div => false
      | _ => true) && l.noDiv && r.noDiv

/-- The two parse-error variants that are declared but never produced. -/
def ParseError.isPhantom : ParseError → Bool
  | .UnexpectedToken _ => true
  | .NotOperator _ => true
  | _ => false

/-- A failing evaluation always reports `DivisionByZero`, tagged with
the span of a `Div` subterm whose right operand evaluates to zero. -/
theorem eval_error_div (e : Ast) : ∀ err, Interpreter.eval e = .error err →
    err.value = .DivisionByZero ∧
    ∃ op l r loc, Subterm (Ast.binOp op l r loc) e ∧ op.value = .Div ∧
      err.loc = loc ∧ Interpreter.eval r = .ok 0 := by
  induction e with
  | num n loc =>
    intro err h
    simp [Interpreter.eval] at h
  | uniOp op e loc ih =>
    intro err h
    simp only [Interpreter.eval] at h
    cases heval : Interpreter.eval e with
    | error err' =>
      rw [heval] at h
      cases h
      obtain ⟨hv, op', l', r', loc', hsub, hdiv, hloc, hr⟩ := ih _ heval
      exact ⟨hv, op', l', r', loc', Subterm.uniOp op loc hsub, hdiv, hloc, hr⟩
    | ok v =>
      rw [heval] at h
      cases h
  | binOp op l r loc ihl ihr =>
    intro err h
    simp only [Interpreter.eval] at h
    cases hevl : Interpreter.eval l with
    | error errl =>
      rw [hevl] at h
      cases h
      obtain ⟨hv, op', l', r', loc', hsub, hdiv, hloc, hz⟩ := ihl _ hevl
      exact ⟨hv, op', l', r', loc', Subterm.binOpL op r loc hsub, hdiv, hloc, hz⟩
    | ok lv =>
      rw [hevl] at h
      cases hevr : Interpreter.eval r with
      | error errr =>
        rw [hevr] at h
        cases h
        obtain ⟨hv, op', l', r', loc', hsub, hdiv, hloc, hz⟩ := ihr _ hevr
        exact ⟨hv, op', l', r', loc', Subterm.binOpR op l loc hsub, hdiv, hloc, hz⟩
      | ok rv =>
        rw [hevr] at h
        cases hop : op.value with
        | Add => simp [evalBinOp, hop] at h
        | Sub => simp [evalBinOp, hop] at h
        | Multi => simp [evalBinOp, hop] at h
        | Div =>
          by_cases hz : rv = 0
          · simp only [evalBinOp, hop, hz, if_pos rfl] at h
            cases h
            exact ⟨rfl, op, l, r, loc, Subterm.refl _, hop, rfl, by rw [hevr, hz]⟩
          · simp [evalBinOp, hop, hz] at h

/-- Errors propagate: if a subterm fails to evaluate, so does the whole
tree (evaluation is fail-fast). -/
theorem subterm_eval_error {s e : Ast} (hsub : Subterm s e) :
    ∀ err, Interpreter.eval s = .error err →
      ∃ err2, Interpreter.eval e = .error err2 := by
  induction hsub with
  | refl => exact fun err h => ⟨err, h⟩
  | uniOp op loc _ ih =>
    intro err h
    obtain ⟨err2, h2⟩ := ih err h
    exact ⟨err2, by simp [Interpreter.eval, h2]⟩
  | binOpL op r loc _ ih =>
    intro err h
    obtain ⟨err2, h2⟩ := ih err h
    exact ⟨err2, by simp [Interpreter.eval, h2]⟩
  | binOpR op l loc _ ih =>
    intro err h
    obtain ⟨err2, h2⟩ := ih err h
    cases hevl : Interpreter.eval l with
    | error errl => exact ⟨errl, by simp [Interpreter.eval, hevl]⟩
    | ok lv => exact ⟨err2, by simp [Interpreter.eval, hevl, h2]⟩

/-- A `Div` subterm whose right operand evaluates to zero makes the
whole evaluation fail. -/
theorem div_zero_eval_error {e : Ast} (op : BinOp) (l r : Ast) (loc : Loc)
    (hsub : Subterm (.binOp op l r loc) e) (hdiv : op.value = .Div)
    (hz : Interpreter.eval r = .ok 0) :
    ∃ err, Interpreter.eval e = .error err := by
  have hnode : ∃ err, Interpreter.eval (Ast.binOp op l r loc) = .error err := by
    cases hevl : Interpreter.eval l with
    | error errl => exact ⟨errl, by simp [Interpreter.eval, hevl]⟩
    | ok lv =>
      exact ⟨⟨.DivisionByZero, loc⟩, by simp [Interpreter.eval, hevl, hz, evalBinOp, hdiv]⟩
  obtain ⟨err, herr⟩ := hnode
  exact subterm_eval_error hsub err herr

/-- An AST with no division node always evaluates successfully. -/
theorem noDiv_eval_ok (e : Ast) (h : e.noDiv = true) :
    ∃ n, Interpreter.eval e = .ok n := by
  induction e with
  | num n loc => exact ⟨wrap64 n, rfl⟩
  | uniOp op e loc ih =>
    obtain ⟨n, hn⟩ := ih (by simpa [Ast.noDiv] using h)
    exact ⟨evalUniOp op n, by simp [Interpreter.eval, hn]⟩
  | binOp op l r loc ihl ihr =>
    simp only [Ast.noDiv, Bool.and_eq_true] at h
    obtain ⟨⟨hop, hl⟩, hr⟩ := h
    obtain ⟨lv, hlv⟩ := ihl hl
    obtain ⟨rv, hrv⟩ := ihr hr
    cases hopv : op.value with
    | Add => exact ⟨wrap64 (lv + rv), by simp [Interpreter.eval, hlv, hrv, evalBinOp, hopv]⟩
    | Sub => exact ⟨wrap64 (lv - rv), by simp [Interpreter.eval, hlv, hrv, evalBinOp, hopv]⟩
    | Multi => exact ⟨wrap64 (lv * rv), by simp [Interpreter.eval, hlv, hrv, evalBinOp, hopv]⟩
    | Div => rw [hopv] at hop; simp at hop

/-- The left-associative loop never surfaces a phantom error: an
`op_parser` failure is swallowed (the loop just ends), so the only
errors that escape come from the sub-expression parser. Note that no
assumption at all is needed about `opP`. -/
theorem parseLeftBinopGo_no_phantom
    {opP : List Token → Except ParseError (BinOp × List Token)}
    {subP : List Token → Except ParseError (Ast × List Token)}
    (hsub : ∀ ts err, subP ts = .error err → err.isPhantom = false) :
    ∀ fuel e toks err, parseLeftBinopGo opP subP fuel e toks = .error err →
      err.isPhantom = false := by
  intro fuel
  induction fuel with
  | zero =>
    intro e toks err h
    simp [parseLeftBinopGo] at h
  | succ fuel ih =>
    intro e toks err h
    simp only [parseLeftBinopGo] at h
    cases toks with
    | nil => simp at h
    | cons t ts =>
      cases hop : opP (t :: ts) with
      | error e2 => simp [hop] at h
      | ok pr =>
        obtain ⟨op, toks1⟩ := pr
        cases hs : subP toks1 with
        | error err2 =>
          simp only [hop, hs] at h
          cases h
          exact hsub _ _ hs
        | ok pr2 =>
          obtain ⟨r, toks2⟩ := pr2
          simp only [hop, hs] at h
          exact ih _ _ _ h

/-- No parsing function ever surfaces `UnexpectedToken` or
`NotOperator`: combined induction over the fuel of the mutually
recursive parsers. -/
theorem parsers_no_phantom : ∀ fuel : Nat,
    (∀ toks err, parseAtom fuel toks = .error err → err.isPhantom = false) ∧
    (∀ toks err, parseExpr1 fuel toks = .error err → err.isPhantom = false) ∧
    (∀ toks err, parseExpr2 fuel toks = .error err → err.isPhantom = false) ∧
    (∀ e toks err, parseExpr2Go fuel e toks = .error err → err.isPhantom = false) ∧
    (∀ toks err, parseExpr3 fuel toks = .error err → err.isPhantom = false) := by
  intro fuel
  induction fuel with
  | zero =>
    refine ⟨?_, ?_, ?_, ?_, ?_⟩
    · intro toks err h; simp only [parseAtom] at h; cases h; rfl
    · intro toks err h; simp only [parseExpr1] at h; cases h; rfl
    · intro toks err h; simp only [parseExpr2] at h; cases h; rfl
    · intro e toks err h; simp only [parseExpr2Go] at h; cases h
    · intro toks err h; simp only [parseExpr3] at h; cases h; rfl
  | succ fuel ih =>
    obtain ⟨ihA, ih1, ih2, ih2g, ih3⟩ := ih
    refine ⟨?_, ?_, ?_, ?_, ?_⟩
    · -- parseAtom
      intro toks err h
      simp only [parseAtom] at h
      cases toks with
      | nil => cases h; rfl
      | cons tok rest =>
        obtain ⟨tv, tl⟩ := tok
        cases tv with
        | Number n => simp at h
        | LParen =>
          cases h3 : parseExpr3 fuel rest with
          | error e2 =>
            simp only [h3] at h
            cases h
            exact ih3 _ _ h3
          | ok pr =>
            obtain ⟨e, rest2⟩ := pr
            simp only [h3] at h
            cases rest2 with
            | nil => cases h; rfl
            | cons t rest3 =>
              obtain ⟨t2v, t2l⟩ := t
              cases t2v <;> simp_all <;> (cases h; rfl)
        | Plus => cases h; rfl
        | Minus => cases h; rfl
        | Asterisk => cases h; rfl
        | Slash => cases h; rfl
        | RParen => cases h; rfl
    · -- parseExpr1
      intro toks err h
      simp only [parseExpr1] at h
      cases toks with
      | nil => exact ihA _ _ h
      | cons tok rest =>
        obtain ⟨tv, tl⟩ := tok
        cases tv with
        | Plus =>
          cases hA : parseAtom fuel rest with
          | error e2 =>
            simp only [hA] at h
            cases h
            exact ihA _ _ hA
          | ok pr => obtain ⟨e, rest2⟩ := pr; simp [hA] at h
        | Minus =>
          cases hA : parseAtom fuel rest with
          | error e2 =>
            simp only [hA] at h
            cases h
            exact ihA _ _ hA
          | ok pr => obtain ⟨e, rest2⟩ := pr; simp [hA] at h
        | Number n => exact ihA _ _ h
        | Asterisk => exact ihA _ _ h
        | Slash => exact ihA _ _ h
        | LParen => exact ihA _ _ h
        | RParen => exact ihA _ _ h
    · -- parseExpr2
      intro toks err h
      simp only [parseExpr2] at h
      cases h1 : parseExpr1 fuel toks with
      | error e2 =>
        simp only [h1] at h
        cases h
        exact ih1 _ _ h1
      | ok pr =>
        obtain ⟨e, toks1⟩ := pr
        simp only [h1] at h
        exact ih2g _ _ _ h
    · -- parseExpr2Go
      intro e toks err h
      simp only [parseExpr2Go] at h
      cases toks with
      | nil => simp at h
      | cons tok rest =>
        obtain ⟨tv, tl⟩ := tok
        cases tv with
        | Asterisk =>
          cases h1 : parseExpr1 fuel rest with
          | error e2 =>
            simp only [h1] at h
            cases h
            exact ih1 _ _ h1
          | ok pr =>
            obtain ⟨r, toks2⟩ := pr
            simp only [h1] at h
            exact ih2g _ _ _ h
        | Slash =>
          cases h1 : parseExpr1 fuel rest with
          | error e2 =>
            simp only [h1] at h
            cases h
            exact ih1 _ _ h1
          | ok pr =>
            obtain ⟨r, toks2⟩ := pr
            simp only [h1] at h
            exact ih2g _ _ _ h
        | Number n => simp at h
        | Plus => simp at h
        | Minus => simp at h
        | LParen => simp at h
        | RParen => simp at h
    · -- parseExpr3
      intro toks err h
      simp only [parseExpr3] at h
      cases h2 : parseExpr2 fuel toks with
      | error e2 =>
        simp only [h2] at h
        cases h
        exact ih2 _ _ h2
      | ok pr =>
        obtain ⟨e, toks1⟩ := pr
        simp only [h2] at h
        exact parseLeftBinopGo_no_phantom (fun ts err2 h2' => ih2 _ _ h2') _ _ _ _ h

/-- `recognizeMany` consumes a maximal run: it never moves backwards,
every byte inside the run satisfies `f`, and the byte it stops on (if
any) does not — provided the fuel covers the remaining input, as it
does at every call site. -/
theorem recognizeMany_maximal (input : List Nat) (f : Nat → Bool) :
    ∀ fuel pos, input.length ≤ fuel + pos →
      pos ≤ recognizeMany input f fuel pos ∧
      (∀ i, pos ≤ i → i < recognizeMany input f fuel pos →
        f (input.getD i 0) = true) ∧
      (recognizeMany input f fuel pos < input.length →
        f (input.getD (recognizeMany input f fuel pos) 0) = false) := by
  intro fuel
  induction fuel with
  | zero =>
    intro pos hle
    simp only [recognizeMany]
    exact ⟨Nat.le_refl _, fun i h1 h2 => absurd h2 (by omega),
      fun hlt => absurd hlt (by omega)⟩
  | succ fuel ih =>
    intro pos hle
    simp only [recognizeMany]
    cases hcond : (decide (pos < input.length) && f (input.getD pos 0)) with
    | false =>
      simp only [hcond, if_false, Bool.false_eq_true]
      refine ⟨Nat.le_refl _, fun i h1 h2 => absurd h2 (by omega), fun hlt => ?_⟩
      rcases Bool.and_eq_false_iff.mp hcond with hd | hf
      · exact absurd hlt (by simpa using hd)
      · exact hf
    | true =>
      simp only [hcond, if_true]
      obtain ⟨h1, h2, h3⟩ := ih (pos + 1) (by omega)
      obtain ⟨hlt, hf⟩ := Bool.and_eq_true_iff.mp hcond
      refine ⟨by omega, fun i hi1 hi2 => ?_, h3⟩
      rcases Nat.eq_or_lt_of_le hi1 with rfl | hgt
      · exact hf
      · exact h2 i (by omega) hi2

/-- C1: multiplication and division bind tighter than addition and
subtraction: parsing then evaluating "1 + 2 * 3" returns `Ok(7)`, and
"(1 + 2) * 3" returns `Ok(9)`. -/
theorem c1_precedence :
    runSource (strBytes "1 + 2 * 3") = some (.ok 7) ∧
    runSource (strBytes "(1 + 2) * 3") = some (.ok 9) := by
  exact ⟨by decide, by decide⟩

/-- C2: same-precedence operators associate to the left: each iteration
of the `parse_left_binop` loop wraps the previously built left subtree
in a new node whose span merges the left and right subtree spans; and
parsing then evaluating "8 - 3 - 2" returns `Ok(3)`, not `Ok(7)`. -/
theorem c2_left_associativity :
    (∀ (opP : List Token → Except ParseError (BinOp × List Token))
      (subP : List Token → Except ParseError (Ast × List Token))
      (fuel : Nat) (acc : Ast) (t : Token) (ts toks1 toks2 : List Token)
      (op : BinOp) (r : Ast),
      opP (t :: ts) = .ok (op, toks1) →
      subP toks1 = .ok (r, toks2) →
      parseLeftBinopGo opP subP (fuel + 1) acc (t :: ts) =
        parseLeftBinopGo opP subP fuel
          (Ast.binOp op acc r (acc.loc.merge r.loc)) toks2) ∧
    runSource (strBytes "8 - 3 - 2") = some (.ok 3) := by
  constructor
  · intro opP subP fuel acc t ts toks1 toks2 op r hop hs
    simp only [parseLeftBinopGo, hop, hs]
  · decide

/-- C6: the top level requires the entire token sequence to be
consumed: when the expression parser succeeds but leaves at least one
token, `parse` returns `RedundantExpression` carrying the first
leftover token. -/
theorem c6_redundant_trailing (tokens : List Token) (ast : Ast)
    (t : Token) (rest : List Token)
    (h : parseExpr (fuelFor tokens) tokens = .ok (ast, t :: rest)) :
    parse tokens = .error (.RedundantExpression t) := by
  unfold parse
  rw [h]

/-- C6 witness: two number tokens; the first parses, the second is
leftover. -/
theorem c6_redundant_trailing_witness :
    parseExpr (fuelFor [⟨.Number 1, ⟨0, 1⟩⟩, ⟨.Number 2, ⟨2, 3⟩⟩])
        [⟨.Number 1, ⟨0, 1⟩⟩, ⟨.Number 2, ⟨2, 3⟩⟩] =
      .ok (Ast.num 1 ⟨0, 1⟩, [⟨.Number 2, ⟨2, 3⟩⟩]) ∧
    parse [⟨.Number 1, ⟨0, 1⟩⟩, ⟨.Number 2, ⟨2, 3⟩⟩] =
      .error (.RedundantExpression ⟨.Number 2, ⟨2, 3⟩⟩) :=
  ⟨by decide, c6_redundant_trailing _ (Ast.num 1 ⟨0, 1⟩) ⟨.Number 2, ⟨2, 3⟩⟩ [] (by decide)⟩

/-- C9: the diagnostic reporter derives the highlight span from the
error kind: a lexical error uses its own span; `UnexpectedToken`,
`NotExpression`, `NotOperator` and `UnclosedOpenParen` use the
offending token's span; `RedundantExpression(tok)` spans from `tok`'s
start offset to the end of the source; `Eof` uses the synthetic
one-character span just past the end of input. -/
theorem c9_diagnostic_spans (input : List Nat) (le : LexError) (tok : Token) :
    diagnosticLoc input (.Lexer le) = le.loc ∧
    diagnosticLoc input (.Parser (.UnexpectedToken tok)) = tok.loc ∧
    diagnosticLoc input (.Parser (.NotExpression tok)) = tok.loc ∧
    diagnosticLoc input (.Parser (.NotOperator tok)) = tok.loc ∧
    diagnosticLoc input (.Parser (.UnclosedOpenParen tok)) = tok.loc ∧
    diagnosticLoc input (.Parser (.RedundantExpression tok)) = ⟨tok.loc.lo, input.length⟩ ∧
    diagnosticLoc input (.Parser .Eof) = ⟨input.length, input.length + 1⟩ :=
  ⟨rfl, rfl, rfl, rfl, rfl, rfl, rfl⟩

/-- C10: a parenthesized atom returns the inner expression's AST
unchanged, spans included, so the parenthesis bytes are not covered:
for "(4 / 0)" the division node's span is 1-6, not 0-7. -/
theorem c10_paren_transparent_span :
    (∀ (fuel : Nat) (loc : Loc) (rest rest2 : List Token) (e : Ast) (t : Token),
      parseExpr3 fuel rest = .ok (e, t :: rest2) → t.value = .RParen →
      parseAtom (fuel + 1) (⟨.LParen, loc⟩ :: rest) = .ok (e, rest2)) ∧
    parseSource (strBytes "(4 / 0)") =
      .ok (Ast.binOp ⟨.Div, ⟨3, 4⟩⟩ (Ast.num 4 ⟨1, 2⟩) (Ast.num 0 ⟨5, 6⟩) ⟨1, 6⟩) := by
  constructor
  · intro fuel loc rest rest2 e t h3 htv
    obtain ⟨tv, tl⟩ := t
    cases tv <;> simp_all [parseAtom]
  · decide

/-- C10 witness: the inner expression of "(1)" comes back unchanged. -/
theorem c10_paren_transparent_span_witness :
    parseExpr3 4 [⟨.Number 1, ⟨1, 2⟩⟩, ⟨.RParen, ⟨2, 3⟩⟩] =
      .ok (Ast.num 1 ⟨1, 2⟩, [⟨.RParen, ⟨2, 3⟩⟩]) ∧
    parseAtom 5 [⟨.LParen, ⟨0, 1⟩⟩, ⟨.Number 1, ⟨1, 2⟩⟩, ⟨.RParen, ⟨2, 3⟩⟩] =
      .ok (Ast.num 1 ⟨1, 2⟩, []) :=
  ⟨by decide,
    c10_paren_transparent_span.1 4 ⟨0, 1⟩ [⟨.Number 1, ⟨1, 2⟩⟩, ⟨.RParen, ⟨2, 3⟩⟩] []
      (Ast.num 1 ⟨1, 2⟩) ⟨.RParen, ⟨2, 3⟩⟩ (by decide) rfl⟩

/-- C2 witness: one loop step on the tokens of "8 - 3". -/
theorem c2_left_associativity_witness :
    parseExpr3Op [⟨.Minus, ⟨2, 3⟩⟩, ⟨.Number 3, ⟨4, 5⟩⟩] =
      .ok (⟨.Sub, ⟨2, 3⟩⟩, [⟨.Number 3, ⟨4, 5⟩⟩]) ∧
    parseExpr2 5 [⟨.Number 3, ⟨4, 5⟩⟩] = .ok (Ast.num 3 ⟨4, 5⟩, []) ∧
    parseLeftBinopGo parseExpr3Op (parseExpr2 5) 3 (Ast.num 8 ⟨0, 1⟩)
        [⟨.Minus, ⟨2, 3⟩⟩, ⟨.Number 3, ⟨4, 5⟩⟩] =
      parseLeftBinopGo parseExpr3Op (parseExpr2 5) 2
        (Ast.binOp ⟨.Sub, ⟨2, 3⟩⟩ (Ast.num 8 ⟨0, 1⟩) (Ast.num 3 ⟨4, 5⟩)
          ((Ast.num 8 ⟨0, 1⟩).loc.merge (Ast.num 3 ⟨4, 5⟩).loc)) [] :=
  ⟨by decide, by decide,
    c2_left_associativity.1 parseExpr3Op (parseExpr2 5) 2 (Ast.num 8 ⟨0, 1⟩)
      ⟨.Minus, ⟨2, 3⟩⟩ [⟨.Number 3, ⟨4, 5⟩⟩] [⟨.Number 3, ⟨4, 5⟩⟩] []
      ⟨.Sub, ⟨2, 3⟩⟩ (Ast.num 3 ⟨4, 5⟩) (by decide) (by decide)⟩

/-- C7: in a parenthesized atom, running out of tokens before the
closing parenthesis fails with `UnclosedOpenParen` carrying the opening
token ("1 + (2 - 3" fails on the `(` at span 4-5), and a non-`)` token
in the closing position fails with `RedundantExpression` carrying that
token ("(+ 1 3)" fails on `Number(3)` at span 5-6). -/
theorem c7_paren_errors :
    (∀ (fuel : Nat) (loc : Loc) (rest : List Token) (e : Ast),
      parseExpr3 fuel rest = .ok (e, []) →
      parseAtom (fuel + 1) (⟨.LParen, loc⟩ :: rest) =
        .error (.UnclosedOpenParen ⟨.LParen, loc⟩)) ∧
    (∀ (fuel : Nat) (loc : Loc) (rest rest2 : List Token) (e : Ast) (t : Token),
      parseExpr3 fuel rest = .ok (e, t :: rest2) → t.value ≠ .RParen →
      parseAtom (fuel + 1) (⟨.LParen, loc⟩ :: rest) =
        .error (.RedundantExpression t)) ∧
    parseSource (strBytes "1 + (2 - 3") =
      .error (.Parser (.UnclosedOpenParen ⟨.LParen, ⟨4, 5⟩⟩)) ∧
    parseSource (strBytes "(+ 1 3)") =
      .error (.Parser (.RedundantExpression ⟨.Number 3, ⟨5, 6⟩⟩)) := by
  refine ⟨?_, ?_, by decide, by decide⟩
  · intro fuel loc rest e h3
    simp [parseAtom, h3]
  · intro fuel loc rest rest2 e t h3 hne
    obtain ⟨tv, tl⟩ := t
    cases tv <;> simp_all [parseAtom]

/-- C7 witness: instantiate both paren-error shapes on the token lists
of "(1" and "(1 2". -/
theorem c7_paren_errors_witness :
    parseExpr3 4 [⟨.Number 1, ⟨1, 2⟩⟩] = .ok (Ast.num 1 ⟨1, 2⟩, []) ∧
    parseAtom 5 [⟨.LParen, ⟨0, 1⟩⟩, ⟨.Number 1, ⟨1, 2⟩⟩] =
      .error (.UnclosedOpenParen ⟨.LParen, ⟨0, 1⟩⟩) ∧
    parseAtom 5 [⟨.LParen, ⟨0, 1⟩⟩, ⟨.Number 1, ⟨1, 2⟩⟩, ⟨.Number 2, ⟨3, 4⟩⟩] =
      .error (.RedundantExpression ⟨.Number 2, ⟨3, 4⟩⟩) :=
  ⟨by decide,
    c7_paren_errors.1 4 ⟨0, 1⟩ [⟨.Number 1, ⟨1, 2⟩⟩] (Ast.num 1 ⟨1, 2⟩) (by decide),
    c7_paren_errors.2.1 4 ⟨0, 1⟩ [⟨.Number 1, ⟨1, 2⟩⟩, ⟨.Number 2, ⟨3, 4⟩⟩] []
      (Ast.num 1 ⟨1, 2⟩) ⟨.Number 2, ⟨3, 4⟩⟩ (by decide) (by decide)⟩

/-- C8: `parse` never returns the `UnexpectedToken` or `NotOperator`
variants: the left-associative loop swallows any operator-parser
failure (ending the run instead of propagating it), so the only
producer of `NotOperator` is unreachable from the outside, and
`UnexpectedToken` is never constructed at all. -/
theorem c8_phantom_variants :
    (∀ (tokens : List Token) (err : ParseError),
      parse tokens = .error err → err.isPhantom = false) ∧
    (∀ (opP : List Token → Except ParseError (BinOp × List Token))
      (subP : List Token → Except ParseError (Ast × List Token))
      (fuel : Nat) (acc : Ast) (t : Token) (ts : List Token) (e2 : ParseError),
      opP (t :: ts) = .error e2 →
      parseLeftBinopGo opP subP (fuel + 1) acc (t :: ts) = .ok (acc, t :: ts)) := by
  constructor
  · intro tokens err h
    unfold parse at h
    cases hp : parseExpr (fuelFor tokens) tokens with
    | error e2 =>
      rw [hp] at h
      cases h
      exact (parsers_no_phantom (fuelFor tokens)).2.2.2.2 _ _ hp
    | ok pr =>
      obtain ⟨ast, rest⟩ := pr
      rw [hp] at h
      cases rest with
      | nil => cases h
      | cons t rest2 => cases h; rfl
  · intro opP subP fuel acc t ts e2 hop
    simp only [parseLeftBinopGo, hop]

/-- C8 witness: `parse []` fails with `Eof`, which is not a phantom
variant; and an `*` token makes `parse_expr3_op` fail, which the loop
swallows. -/
theorem c8_phantom_variants_witness :
    parse [] = .error .Eof ∧
    ParseError.Eof.isPhantom = false ∧
    parseExpr3Op [⟨.Asterisk, ⟨0, 1⟩⟩] =
      .error (.NotOperator ⟨.Asterisk, ⟨0, 1⟩⟩) ∧
    parseLeftBinopGo parseExpr3Op (parseExpr2 3) 1 (Ast.num 7 ⟨0, 1⟩)
        [⟨.Asterisk, ⟨0, 1⟩⟩] =
      .ok (Ast.num 7 ⟨0, 1⟩, [⟨.Asterisk, ⟨0, 1⟩⟩]) :=
  ⟨by decide, c8_phantom_variants.1 [] .Eof (by decide), by decide,
    c8_phantom_variants.2 parseExpr3Op (parseExpr2 3) 0 (Ast.num 7 ⟨0, 1⟩)
      ⟨.Asterisk, ⟨0, 1⟩⟩ [] (.NotOperator ⟨.Asterisk, ⟨0, 1⟩⟩) (by decide)⟩

/-- C5: on any byte that is not a digit, one of `+ - * / ( )`, or a
space/tab/newline, the lexer fails immediately with `InvalidChar`
carrying that byte and the one-byte span `[pos, pos+1)` and returns no
tokens; concretely, lexing "aiueo" fails with `InvalidChar('a')` at
span 0-1. -/
theorem c5_invalid_char :
    (∀ (input : List Nat) (fuel pos : Nat), pos < input.length →
      isLexableByte (input.getD pos 0) = false →
      lexRun input (fuel + 1) pos =
        .error ⟨.InvalidChar (input.getD pos 0), ⟨pos, pos + 1⟩⟩) ∧
    parseSource (strBytes "aiueo") =
      .error (.Lexer ⟨.InvalidChar 97, ⟨0, 1⟩⟩) := by
  constructor
  · intro input fuel pos hpos hb
    simp only [isLexableByte, Bool.or_eq_false_iff] at hb
    simp only [lexRun]
    rw [if_pos hpos]
    obtain ⟨⟨⟨⟨⟨⟨⟨hd, h43⟩, h45⟩, h42⟩, h47⟩, h40⟩, h41⟩, hs⟩ := hb
    simp only [List.getD_eq_getElem?_getD] at hd h43 h45 h42 h47 h40 h41 hs
    simp [hd, hs, of_decide_eq_false h43, of_decide_eq_false h45, of_decide_eq_false h42,
      of_decide_eq_false h47, of_decide_eq_false h40, of_decide_eq_false h41]
  · decide

/-- C5 witness: byte 97 (`'a'`) at position 0 of "aiueo". -/
theorem c5_invalid_char_witness :
    (0 < (strBytes "aiueo").length ∧ isLexableByte ((strBytes "aiueo").getD 0 0) = false) ∧
    lexRun (strBytes "aiueo") 1 0 =
      .error ⟨.InvalidChar ((strBytes "aiueo").getD 0 0), ⟨0, 0 + 1⟩⟩ :=
  ⟨⟨by decide, by decide⟩,
    c5_invalid_char.1 (strBytes "aiueo") 0 0 (by decide) (by decide)⟩

/-- C4: the lexer consumes a maximal run of digit bytes as one `Number`
token spanning the run (the run underlying every `Number` token is
maximal: `recognizeMany` stops exactly at the first byte failing its
predicate), emits single-byte operator/parenthesis tokens, emits
nothing for whitespace, and concretely
`lex "1 + 2 * 3 - - 10"` is exactly the eight expected tokens. -/
theorem c4_lex_tokens :
    (∀ (input : List Nat) (f : Nat → Bool) (fuel pos : Nat),
      input.length ≤ fuel + pos →
      pos ≤ recognizeMany input f fuel pos ∧
      (∀ i, pos ≤ i → i < recognizeMany input f fuel pos →
        f (input.getD i 0) = true) ∧
      (recognizeMany input f fuel pos < input.length →
        f (input.getD (recognizeMany input f fuel pos) 0) = false)) ∧
    lex (strBytes "1 + 2 * 3 - - 10") =
      .ok [⟨.Number 1, ⟨0, 1⟩⟩, ⟨.Plus, ⟨2, 3⟩⟩, ⟨.Number 2, ⟨4, 5⟩⟩,
        ⟨.Asterisk, ⟨6, 7⟩⟩, ⟨.Number 3, ⟨8, 9⟩⟩, ⟨.Minus, ⟨10, 11⟩⟩,
        ⟨.Minus, ⟨12, 13⟩⟩, ⟨.Number 10, ⟨14, 16⟩⟩] :=
  ⟨fun input f fuel pos h => recognizeMany_maximal input f fuel pos h, by decide⟩

/-- C4 witness: the digit run of "10" at position 14 of the scenario
input is the two bytes 14-16. -/
theorem c4_lex_tokens_witness :
    ((strBytes "1 + 2 * 3 - - 10").length ≤ 16 + 14) ∧
    (14 ≤ recognizeMany (strBytes "1 + 2 * 3 - - 10") isDigitByte 16 14 ∧
      (∀ i, 14 ≤ i → i < recognizeMany (strBytes "1 + 2 * 3 - - 10") isDigitByte 16 14 →
        isDigitByte ((strBytes "1 + 2 * 3 - - 10").getD i 0) = true) ∧
      (recognizeMany (strBytes "1 + 2 * 3 - - 10") isDigitByte 16 14 <
          (strBytes "1 + 2 * 3 - - 10").length →
        isDigitByte ((strBytes "1 + 2 * 3 - - 10").getD
          (recognizeMany (strBytes "1 + 2 * 3 - - 10") isDigitByte 16 14) 0) = false)) :=
  ⟨by decide, c4_lex_tokens.1 (strBytes "1 + 2 * 3 - - 10") isDigitByte 16 14 (by decide)⟩

/-- C3: evaluation fails exactly when some `Div` node's right operand
evaluates to zero; the error is `DivisionByZero` and carries the span
of the whole binary-operation node; and every AST containing no `Div`
node evaluates to `Ok`. Concretely, "4 / 0" fails with span 0-5. -/
theorem c3_div_by_zero (e : Ast) :
    (∀ err, Interpreter.eval e = .error err →
      err.value = .DivisionByZero ∧
      ∃ op l r loc, Subterm (Ast.binOp op l r loc) e ∧ op.value = .Div ∧
        err.loc = loc ∧ Interpreter.eval r = .ok 0) ∧
    (∀ (op : BinOp) (l r : Ast) (loc : Loc),
      Subterm (.binOp op l r loc) e → op.value = .Div →
      Interpreter.eval r = .ok 0 → ∃ err, Interpreter.eval e = .error err) ∧
    (e.noDiv = true → ∃ n, Interpreter.eval e = .ok n) ∧
    runSource (strBytes "4 / 0") = some (.error ⟨.DivisionByZero, ⟨0, 5⟩⟩) :=
  ⟨eval_error_div e,
    fun op l r loc hsub hdiv hz => div_zero_eval_error op l r loc hsub hdiv hz,
    noDiv_eval_ok e, by decide⟩

/-- C3 witness: the AST of "4 / 0" fails, and the reported error has
kind `DivisionByZero` with the whole node's span. -/
theorem c3_div_by_zero_witness :
    (Interpreter.eval
        (Ast.binOp ⟨.Div, ⟨2, 3⟩⟩ (Ast.num 4 ⟨0, 1⟩) (Ast.num 0 ⟨4, 5⟩) ⟨0, 5⟩) =
      .error ⟨.DivisionByZero, ⟨0, 5⟩⟩) ∧
    ((⟨.DivisionByZero, ⟨0, 5⟩⟩ : InterpreterError).value = .DivisionByZero ∧
      ∃ op l r loc,
        Subterm (Ast.binOp op l r loc)
          (Ast.binOp ⟨.Div, ⟨2, 3⟩⟩ (Ast.num 4 ⟨0, 1⟩) (Ast.num 0 ⟨4, 5⟩) ⟨0, 5⟩) ∧
        op.value = .Div ∧ (⟨.DivisionByZero, ⟨0, 5⟩⟩ : InterpreterError).loc = loc ∧
        Interpreter.eval r = .ok 0) :=
  ⟨by decide,
    (c3_div_by_zero
        (Ast.binOp ⟨.Div, ⟨2, 3⟩⟩ (Ast.num 4 ⟨0, 1⟩) (Ast.num 0 ⟨4, 5⟩) ⟨0, 5⟩)).1
      ⟨.DivisionByZero, ⟨0, 5⟩⟩ (by decide)⟩
